import Mathlib

/-!
Verification of the undo/redo history engine of the story editor.

The provider layer (`historyProvider.js`) is embedded directly from the
source. The reducer it consumes (`useHistoryReducer`) is not part of the
sources at hand, so its four operations are modelled from the
specification, as noted on each definition.

JavaScript number arithmetic on the small quantities involved (lengths,
offsets, counters) is modelled with `Int` where a subtraction can go
negative (`historyLength - 1`) and with `Nat` elsewhere.
-/

namespace History

/-- The engine state managed by the reducer.  Entries are opaque snapshot
values of some type `α`; index 0 of `entries` is the most recent entry. -/
structure HistoryState (α : Type) where
  entries : List α
  offset : Nat
  globalHistoryLength : Nat
  deriving Repr, DecidableEq

variable {α : Type}

/-- Initial state of the engine: no entries, offset 0, counter 0. -/
def initialState : HistoryState α :=
  { entries := [], offset := 0, globalHistoryLength := 0 }

/-- Embeds `offset < historyLength - 1` from historyProvider.js line 65.
The subtraction is over JS numbers, so over `Int`: with no entries the
comparison is `0 < -1`, which is false. -/
def canUndo (s : HistoryState α) : Bool :=
  decide ((s.offset : Int) < (s.entries.length : Int) - 1)

/-- Embeds `offset > 0` from historyProvider.js line 66. -/
def canRedo (s : HistoryState α) : Bool :=
  decide (0 < s.offset)

/-- Modelled from the spec: `appendToHistory` of the missing
`useHistoryReducer`.  If `offset > 0`, first discard the entries at
indices `[0, offset)` and reset `offset` to 0; then prepend the entry;
if the length then exceeds `size`, drop the oldest (highest-index)
entry; increment `globalHistoryLength` unconditionally. -/
def appendToHistory (size : Nat) (s : HistoryState α) (entry : α) : HistoryState α :=
  let kept := if 0 < s.offset then s.entries.drop s.offset else s.entries
  let inserted := entry :: kept
  let entries := if size < inserted.length then inserted.dropLast else inserted
  { entries := entries
    offset := 0
    globalHistoryLength := s.globalHistoryLength + 1 }

/-- Modelled from the spec: `undo` of the missing `useHistoryReducer`.
When `canUndo` holds, increment `offset`; otherwise a no-op. -/
def undo (s : HistoryState α) : HistoryState α :=
  if canUndo s then { s with offset := s.offset + 1 } else s

/-- Modelled from the spec: `redo` of the missing `useHistoryReducer`.
When `canRedo` holds, decrement `offset`; otherwise a no-op. -/
def redo (s : HistoryState α) : HistoryState α :=
  if canRedo s then { s with offset := s.offset - 1 } else s

/-- Modelled from the spec: `clearHistory` of the missing
`useHistoryReducer`.  Resets `entries` and `offset`, keeps
`globalHistoryLength`. -/
def clearHistory (s : HistoryState α) : HistoryState α :=
  { s with entries := [], offset := 0 }

/-- Modelled from the spec: the replay state is the entry at index
`offset`, or nothing when `entries` is empty. -/
def replayState (s : HistoryState α) : Option α :=
  s.entries[s.offset]?

/-- Embeds `HistoryProvider.defaultProps` (historyProvider.js lines
92-94): the capacity used when none is supplied. -/
def defaultSize : Nat := 50

/-- One call into the engine, for reasoning about operation sequences. -/
inductive HistOp (α : Type) where
  | append (entry : α)
  | undo
  | redo
  | clear
  deriving Repr, DecidableEq

/-- Applies one operation to the state. -/
def applyOp (size : Nat) (s : HistoryState α) : HistOp α → HistoryState α
  | .append entry => appendToHistory size s entry
  | .undo => undo s
  | .redo => redo s
  | .clear => clearHistory s

/-- Runs a sequence of operations from a state. -/
def runOps (size : Nat) (s : HistoryState α) (ops : List (HistOp α)) : HistoryState α :=
  ops.foldl (applyOp size) s

/-- Number of `append` operations in a sequence. -/
def countAppends : List (HistOp α) → Nat
  | [] => 0
  | .append _ :: rest => countAppends rest + 1
  | _ :: rest => countAppends rest

/-- Embeds the `useEffect` body of historyProvider.js lines 52-60, which
runs after each `globalHistoryLength` update: if `globalHistoryLength - 1 > 0`
set the changed flag to true; if `globalHistoryLength - 1 <= 0` set it to
false.  The two statements run in order on the current flag value. -/
def historyChangedEffect (globalHistoryLength : Int) (hasHistoryChanged : Bool) : Bool :=
  let afterFirst := if 0 < globalHistoryLength - 1 then true else hasHistoryChanged
  if globalHistoryLength - 1 ≤ 0 then false else afterFirst

/-- An occurrence that can change the provider's `hasHistoryChanged`
flag during a run: an explicit `setHistoryChangedState(b)` call, or a
change of `globalHistoryLength` to a new value `n`, after which the
`useEffect` of lines 52-60 runs. -/
inductive ProviderEvent where
  | setChangedCall (b : Bool)
  | globalLengthUpdate (n : Nat)
  deriving Repr, DecidableEq

/-- Evolution of the `hasHistoryChanged` flag across one provider event. -/
def stepHasChanged (h : Bool) : ProviderEvent → Bool
  | .setChangedCall b => b
  | .globalLengthUpdate n => historyChangedEffect (n : Int) h

/-- Embeds the field names of the `state.state` object built by
historyProvider.js lines 62-68, in source order: this is the read state
the provider exposes through its context. -/
def exposedReadStateFields : List String :=
  ["replayState", "canUndo", "canRedo", "globalHistoryLength"]

/-- The read-state field names claimed by the spec (section 6). -/
def specReadStateFields : List String :=
  ["replayState", "canUndo", "canRedo", "globalHistoryLength", "hasHistoryChanged"]

/-- A concrete two-entry state used for evaluations: entries `[1, 0]`
(1 most recent), offset 0, counter 2. -/
def sampleState : HistoryState Nat :=
  { entries := [1, 0], offset := 0, globalHistoryLength := 2 }

/-- C2: for every state, `canUndo` is true iff `offset < entries.length - 1`
and `canRedo` is true iff `offset > 0`; in the initial state (entries empty,
offset 0) both flags are false. -/
theorem canUndo_canRedo_characterisation (s : HistoryState α) :
    (canUndo s = true ↔ (s.offset : Int) < (s.entries.length : Int) - 1) ∧
    (canRedo s = true ↔ 0 < s.offset) ∧
    canUndo (initialState (α := α)) = false ∧
    canRedo (initialState (α := α)) = false := by
  refine ⟨?_, ?_, rfl, rfl⟩ <;> simp [canUndo, canRedo]

/-- C6: `clearHistory` empties the entries, resets the offset to 0, and
changes nothing else: in particular `globalHistoryLength` is kept. -/
theorem clearHistory_spec (s : HistoryState α) :
    clearHistory s =
      { entries := [], offset := 0, globalHistoryLength := s.globalHistoryLength } := by
  rfl

/-- Helper: the effect body always resolves to the derived value
`globalHistoryLength - 1 > 0`, discarding the previous flag. -/
theorem historyChangedEffect_eq (g : Int) (prev : Bool) :
    historyChangedEffect g prev = decide (0 < g - 1) := by
  unfold historyChangedEffect
  by_cases hle : g - 1 ≤ 0
  · have hnot : ¬ (0 < g - 1) := by omega
    simp [hle, hnot]
  · have h01 : 0 < g - 1 := by omega
    simp [hle, h01]

/-- C7: after each run of the effect that follows a `globalHistoryLength`
update, the `hasHistoryChanged` flag equals `globalHistoryLength - 1 > 0`,
i.e. it is true exactly when `globalHistoryLength` exceeds 1 — whatever
value the flag held before. -/
theorem historyChangedEffect_spec (g : Int) (prev : Bool) :
    historyChangedEffect g prev = decide (0 < g - 1) ∧
    (historyChangedEffect g prev = true ↔ 1 < g) := by
  refine ⟨historyChangedEffect_eq g prev, ?_⟩
  rw [historyChangedEffect_eq g prev]
  simp only [decide_eq_true_eq]
  omega

/-- C10: a `setHistoryChangedState(b)` call installs `b`, but as soon as
`globalHistoryLength` changes to any value `n`, the effect recomputes the
flag as `n - 1 > 0`, independently of the manually installed `b`. -/
theorem setChanged_transient (h : Bool) (b : Bool) (n : Nat) :
    stepHasChanged h (.setChangedCall b) = b ∧
    stepHasChanged b (.globalLengthUpdate n) = decide (0 < (n : Int) - 1) := by
  exact ⟨rfl, historyChangedEffect_eq (n : Int) b⟩

/-- C8 (counterexample): the read state built by the provider does not
contain `hasHistoryChanged`, so the exposed read state is not the
five-field record the spec claims. -/
theorem exposedReadState_no_hasHistoryChanged :
    ¬ "hasHistoryChanged" ∈ exposedReadStateFields ∧
    exposedReadStateFields ≠ specReadStateFields := by
  decide

/-- C8 (amended): the exposed read state contains exactly the four fields
`replayState`, `canUndo`, `canRedo`, `globalHistoryLength`;
`hasHistoryChanged` is not part of it. -/
theorem exposedReadState_fields :
    exposedReadStateFields =
      ["replayState", "canUndo", "canRedo", "globalHistoryLength"] ∧
    ¬ "hasHistoryChanged" ∈ exposedReadStateFields := by
  decide

/-- C1: `appendToHistory` resets the offset to 0 (discarding the entries
at indices `[0, offset)` first, as the entries clause shows), prepends
the new entry, drops the oldest entry when the capacity is exceeded, and
increments `globalHistoryLength` unconditionally.  The closing conjunct
is the spec scenario: append A, B, C (here 0, 1, 2), undo twice, then
append D (here 3) — the result holds `[D, A]` with offset 0, and the
counter still advanced to 4. -/
theorem appendToHistory_spec (size : Nat) (s : HistoryState α) (entry : α) :
    (appendToHistory size s entry).offset = 0 ∧
    (appendToHistory size s entry).globalHistoryLength = s.globalHistoryLength + 1 ∧
    (appendToHistory size s entry).entries =
      (if size < (entry :: s.entries.drop s.offset).length
        then (entry :: s.entries.drop s.offset).dropLast
        else entry :: s.entries.drop s.offset) ∧
    appendToHistory 50
        (undo (undo (appendToHistory 50 (appendToHistory 50
          (appendToHistory 50 (initialState (α := Nat)) 0) 1) 2))) 3 =
      { entries := [3, 0], offset := 0, globalHistoryLength := 4 } := by
  refine ⟨rfl, rfl, ?_, by decide⟩
  unfold appendToHistory
  rcases Nat.eq_zero_or_pos s.offset with h | h
  · simp [h]
  · simp [h]

/-- C3: when `canUndo` is false, `undo` returns the state unchanged, and
when `canRedo` is false, `redo` returns the state unchanged; both are
total functions, so neither signals an error at the boundary. -/
theorem undo_redo_noop (s : HistoryState α) :
    (canUndo s = false → undo s = s) ∧ (canRedo s = false → redo s = s) := by
  constructor <;> intro h
  · simp [undo, h]
  · simp [redo, h]

/-- Witness for C3 at the initial state, where both flags are false. -/
theorem undo_redo_noop_witness :
    canUndo (initialState (α := Nat)) = false ∧
    undo (initialState (α := Nat)) = initialState ∧
    canRedo (initialState (α := Nat)) = false ∧
    redo (initialState (α := Nat)) = initialState :=
  ⟨by decide, (undo_redo_noop (initialState (α := Nat))).1 (by decide),
   by decide, (undo_redo_noop (initialState (α := Nat))).2 (by decide)⟩

/-- C4: from any state where `canUndo` holds, `undo` followed immediately
by `redo` restores the replay state held before the `undo` call. -/
theorem undo_then_redo_replay (s : HistoryState α) (h : canUndo s = true) :
    replayState (redo (undo s)) = replayState s := by
  have hu : undo s = { s with offset := s.offset + 1 } := by simp [undo, h]
  rw [hu]
  have hr : canRedo ({ s with offset := s.offset + 1 } : HistoryState α) = true := by
    simp [canRedo]
  simp [redo, hr, replayState]

/-- Witness for C4 on a two-entry state with offset 0. -/
theorem undo_then_redo_replay_witness :
    canUndo sampleState = true ∧
    replayState (redo (undo sampleState)) = replayState sampleState :=
  ⟨by decide, undo_then_redo_replay sampleState (by decide)⟩

/-- Helper: `undo` never changes the counter. -/
theorem undo_globalHistoryLength (s : HistoryState α) :
    (undo s).globalHistoryLength = s.globalHistoryLength := by
  unfold undo
  split <;> rfl

/-- Helper: `redo` never changes the counter. -/
theorem redo_globalHistoryLength (s : HistoryState α) :
    (redo s).globalHistoryLength = s.globalHistoryLength := by
  unfold redo
  split <;> rfl

/-- Helper: one operation adds its append count (1 or 0) to the counter. -/
theorem applyOp_globalHistoryLength (size : Nat) (s : HistoryState α)
    (op : HistOp α) :
    (applyOp size s op).globalHistoryLength =
      s.globalHistoryLength + countAppends [op] := by
  cases op with
  | append e => rfl
  | undo =>
    show (undo s).globalHistoryLength = s.globalHistoryLength + countAppends [.undo]
    rw [undo_globalHistoryLength]
    rfl
  | redo =>
    show (redo s).globalHistoryLength = s.globalHistoryLength + countAppends [.redo]
    rw [redo_globalHistoryLength]
    rfl
  | clear => rfl

/-- Helper: no operation other than append changes the counter, and
append adds exactly one, so a run adds exactly its append count. -/
theorem runOps_globalHistoryLength (size : Nat) (ops : List (HistOp α))
    (s : HistoryState α) :
    (runOps size s ops).globalHistoryLength =
      s.globalHistoryLength + countAppends ops := by
  induction ops generalizing s with
  | nil => rfl
  | cons op rest ih =>
    have hrun : runOps size s (op :: rest) = runOps size (applyOp size s op) rest := by
      simp [runOps]
    rw [hrun, ih, applyOp_globalHistoryLength]
    cases op with
    | append e =>
      simp only [countAppends]
      omega
    | undo => simp [countAppends]
    | redo => simp [countAppends]
    | clear => simp [countAppends]

/-- C5: from the initial state, after any operation sequence the counter
equals the number of appends in the sequence — intervening undo, redo
and clearHistory calls do not affect it — and every single operation
leaves the counter non-decreasing. -/
theorem globalHistoryLength_counts_appends (size : Nat) (ops : List (HistOp α)) :
    (runOps size (initialState (α := α)) ops).globalHistoryLength =
      countAppends ops ∧
    ∀ (s : HistoryState α) (op : HistOp α),
      s.globalHistoryLength ≤ (applyOp size s op).globalHistoryLength := by
  constructor
  · rw [runOps_globalHistoryLength]
    simp [initialState]
  · intro s op
    rw [applyOp_globalHistoryLength]
    exact Nat.le_add_right _ _

/-- Helper: prepending to a list and dropping the last element when the
capacity is exceeded keeps the length within the capacity, provided the
list was within it. -/
theorem cap_insert_length_le (size : Nat) (entry : α) (kept : List α)
    (h : kept.length ≤ size) :
    (if size < (entry :: kept).length then (entry :: kept).dropLast
      else entry :: kept).length ≤ size := by
  split
  · next hlt =>
    rw [List.length_dropLast]
    simp only [List.length_cons] at hlt ⊢
    omega
  · next hge =>
    simp only [List.length_cons] at hge ⊢
    omega

/-- Helper: one append keeps the entry list within the capacity. -/
theorem appendToHistory_length_le (size : Nat) (s : HistoryState α) (entry : α)
    (h : s.entries.length ≤ size) :
    (appendToHistory size s entry).entries.length ≤ size := by
  have hkept :
      (if 0 < s.offset then s.entries.drop s.offset else s.entries).length ≤ size := by
    split
    · calc (s.entries.drop s.offset).length ≤ s.entries.length := by simp
        _ ≤ size := h
    · exact h
  exact cap_insert_length_le size entry _ hkept

/-- Helper: any append sequence from a within-capacity state stays within
capacity. -/
theorem foldl_append_length_le (size : Nat) (ops : List α) (s : HistoryState α)
    (h : s.entries.length ≤ size) :
    (ops.foldl (appendToHistory size) s).entries.length ≤ size := by
  induction ops generalizing s with
  | nil => simpa using h
  | cons e rest ih =>
    rw [List.foldl_cons]
    exact ih _ (appendToHistory_length_le size s e h)

/-- C9: for every sequence of appends from the initial state with
capacity `size`, the entry list never exceeds `size` entries; every
append leaves the offset at 0; the default capacity is 50. -/
theorem append_sequences_bounded (size : Nat) (ops : List α) :
    (ops.foldl (appendToHistory size) (initialState (α := α))).entries.length ≤ size ∧
    (∀ (s : HistoryState α) (entry : α), (appendToHistory size s entry).offset = 0) ∧
    defaultSize = 50 := by
  refine ⟨foldl_append_length_le size ops _ ?_, fun s entry => rfl, rfl⟩
  simp [initialState]

end History
